import Mathlib

/-!
Verification of the resource-property core of the repository
(`googlecloudsdk/core/resource/resource_property.py`).

The Python module is shallowly embedded: Python values reachable by the
resolver are modelled by the inductive family `PyVal` (the tagged-variant
data model of spec section 3: absence, booleans, integers, strings,
sequences, mappings, sets, attribute objects — plus two carrier shapes
for values the code can produce though the spec's data model elides them:
opaque builtin-attribute values and floats).  Python 2 string operations
are ASCII, so case conversion is modelled with explicit ASCII arithmetic.
Operations that can raise an uncaught exception are modelled in
`Except PyErr`; operations whose exceptions the source catches are folded
into their "no match" results, exactly as the catches do.
-/

namespace ResourceProp

/-! ### ASCII character helpers (Python 2 `str` case semantics) -/

def isLowerA (c : Char) : Bool := 97 ≤ c.toNat && c.toNat ≤ 122

def isUpperA (c : Char) : Bool := 65 ≤ c.toNat && c.toNat ≤ 90

def isDigitA (c : Char) : Bool := 48 ≤ c.toNat && c.toNat ≤ 57

def isAlphaA (c : Char) : Bool := isLowerA c || isUpperA c

/-- Python `str.upper` on a single character. -/
def upChar (c : Char) : Char := if isLowerA c then Char.ofNat (c.toNat - 32) else c

/-- Python `str.lower` on a single character. -/
def downChar (c : Char) : Char := if isUpperA c then Char.ofNat (c.toNat + 32) else c

theorem toNat_ofNat_small {n : Nat} (h : n < 0xd800) : (Char.ofNat n).toNat = n := by
  rw [Char.ofNat, dif_pos (Or.inl h)]
  simp [Char.ofNatAux, Char.toNat, UInt32.toNat, BitVec.toNat_ofNatLt]

theorem isUpperA_upChar {c : Char} (h : isLowerA c = true) : isUpperA (upChar c) = true := by
  simp [isLowerA] at h
  simp [upChar, isLowerA, h, isUpperA, toNat_ofNat_small (by omega : c.toNat - 32 < 0xd800)]
  omega

theorem not_isLowerA_upChar {c : Char} (h : isLowerA c = true) : isLowerA (upChar c) = false := by
  simp [isLowerA] at h
  simp [upChar, isLowerA, h, toNat_ofNat_small (by omega : c.toNat - 32 < 0xd800)]
  omega

theorem downChar_upChar {c : Char} (h : isLowerA c = true) : downChar (upChar c) = c := by
  simp [isLowerA] at h
  have h1 : (Char.ofNat (c.toNat - 32)).toNat = c.toNat - 32 :=
    toNat_ofNat_small (by omega)
  rw [upChar, if_pos (by simp [isLowerA]; omega)]
  rw [downChar, if_pos (by simp [isUpperA, h1]; omega)]
  rw [h1]
  have h2 : c.toNat - 32 + 32 = c.toNat := by omega
  rw [h2, Char.ofNat_toNat]

theorem downChar_of_lower {c : Char} (h : isLowerA c = true) : downChar c = c := by
  simp [isLowerA] at h
  simp [downChar, isUpperA]
  intro h1 h2
  omega

theorem not_isUpperA_of_lower {c : Char} (h : isLowerA c = true) : isUpperA c = false := by
  simp [isLowerA] at h
  simp [isUpperA]
  intro h1
  omega

theorem isAlphaA_of_lower {c : Char} (h : isLowerA c = true) : isAlphaA c = true := by
  simp [isAlphaA, h]

/-! ### The Python value model -/

/-- A path element accepted by `Get` (source lines 143-152): a `str`
property name, an `int` list index, or Python `None` denoting a slice. -/
inductive Key : Type where
  | name (s : String) : Key
  | idx (i : Int) : Key
  | slice : Key
  deriving DecidableEq, Repr

mutual
/-- A Python value as seen by the resolver: the five shapes of the spec's
data model (mapping, sequence, set, attribute object, scalar) plus the
distinguished absent value `None`.  Mappings and attribute objects carry
string-keyed association sequences in insertion order.  `method` is the
opaque value `getattr` yields for a builtin attribute of a `list`/`str`/
numeric instance (a bound method, or occasionally a docstring or numeric
view; the receiver and the content are never consulted by any operation
the resolver performs on such a value, so both are elided).  `float` is a
Python float carried as the decimal literal (or `NaN`, `Infinity`,
`-Infinity`) it was deserialized from; its numeric value is compared by
exact decimal arithmetic below, so only the IEEE-754 rounding step of the
CPython reader (which identifies some distinct decimals and saturates the
out-of-range ones) is not reflected. -/
inductive PyVal : Type where
  | none : PyVal
  | bool (b : Bool) : PyVal
  | int (i : Int) : PyVal
  | str (s : String) : PyVal
  | list (xs : PyList) : PyVal
  | dict (kvs : PyKVs) : PyVal
  | set (xs : PyList) : PyVal
  | obj (attrs : PyKVs) : PyVal
  | method (name : String) : PyVal
  | float (lit : String) : PyVal
  deriving DecidableEq, Repr

/-- A sequence of Python values. -/
inductive PyList : Type where
  | nil : PyList
  | cons (x : PyVal) (rest : PyList) : PyList
  deriving DecidableEq, Repr

/-- String-keyed entries of a mapping or of an object's attribute table. -/
inductive PyKVs : Type where
  | nil : PyKVs
  | cons (k : String) (v : PyVal) (rest : PyKVs) : PyKVs
  deriving DecidableEq, Repr
end

/-! Basic operations on the value model. -/

def PyList.length : PyList → Nat
  | .nil => 0
  | .cons _ rest => 1 + rest.length

def PyList.toListV : PyList → List PyVal
  | .nil => []
  | .cons x rest => x :: rest.toListV

def PyList.ofListV : List PyVal → PyList
  | [] => .nil
  | x :: rest => .cons x (PyList.ofListV rest)

def PyList.append : PyList → PyList → PyList
  | .nil, ys => ys
  | .cons x xs, ys => .cons x (xs.append ys)

/-- Python `d.get(k, default)` over the association entries: first match wins. -/
def PyKVs.get (kvs : PyKVs) (k : String) (dflt : PyVal) : PyVal :=
  match kvs with
  | .nil => dflt
  | .cons k' v rest => if k' = k then v else rest.get k dflt

/-- Python `k in d`. -/
def PyKVs.has (kvs : PyKVs) (k : String) : Bool :=
  match kvs with
  | .nil => false
  | .cons k' _ rest => k' = k || rest.has k

/-- The keys of a mapping, in insertion order (Python `for k in d`). -/
def PyKVs.keys : PyKVs → List String
  | .nil => []
  | .cons k _ rest => k :: rest.keys

def PyKVs.length : PyKVs → Nat
  | .nil => 0
  | .cons _ _ rest => 1 + rest.length

/-- List-structure induction for `PyList` with opaque elements. -/
def PyList.inductionOn {motive : PyList → Prop} (xs : PyList) (nil : motive .nil)
    (cons : ∀ x rest, motive rest → motive (.cons x rest)) : motive xs :=
  match xs with
  | .nil => nil
  | .cons x rest => cons x rest (rest.inductionOn nil cons)

/-- Entry-structure induction for `PyKVs` with opaque values. -/
def PyKVs.inductionOn {motive : PyKVs → Prop} (kvs : PyKVs) (nil : motive .nil)
    (cons : ∀ k v rest, motive rest → motive (.cons k v rest)) : motive kvs :=
  match kvs with
  | .nil => nil
  | .cons k v rest => cons k v rest (rest.inductionOn nil cons)

mutual
/-- Full mutual induction over the value family, `PyVal` component. -/
def pyValInduct (m1 : PyVal → Prop) (m2 : PyList → Prop) (m3 : PyKVs → Prop)
    (hnone : m1 .none) (hbool : ∀ b, m1 (.bool b)) (hint : ∀ i, m1 (.int i))
    (hstr : ∀ s, m1 (.str s)) (hmethod : ∀ s, m1 (.method s))
    (hfloat : ∀ s, m1 (.float s))
    (hlist : ∀ xs, m2 xs → m1 (.list xs)) (hdict : ∀ kvs, m3 kvs → m1 (.dict kvs))
    (hset : ∀ xs, m2 xs → m1 (.set xs)) (hobj : ∀ kvs, m3 kvs → m1 (.obj kvs))
    (hnil2 : m2 .nil) (hcons2 : ∀ x rest, m1 x → m2 rest → m2 (.cons x rest))
    (hnil3 : m3 .nil) (hcons3 : ∀ k v rest, m1 v → m3 rest → m3 (.cons k v rest)) :
    ∀ v, m1 v
  | .none => hnone
  | .bool b => hbool b
  | .int i => hint i
  | .str s => hstr s
  | .method s => hmethod s
  | .float s => hfloat s
  | .list xs =>
    hlist xs
      (pyListInduct m1 m2 m3 hnone hbool hint hstr hmethod hfloat hlist hdict hset hobj hnil2 hcons2 hnil3 hcons3
        xs)
  | .dict kvs =>
    hdict kvs
      (pyKVsInduct m1 m2 m3 hnone hbool hint hstr hmethod hfloat hlist hdict hset hobj hnil2 hcons2 hnil3 hcons3
        kvs)
  | .set xs =>
    hset xs
      (pyListInduct m1 m2 m3 hnone hbool hint hstr hmethod hfloat hlist hdict hset hobj hnil2 hcons2 hnil3 hcons3
        xs)
  | .obj kvs =>
    hobj kvs
      (pyKVsInduct m1 m2 m3 hnone hbool hint hstr hmethod hfloat hlist hdict hset hobj hnil2 hcons2 hnil3 hcons3
        kvs)

/-- Full mutual induction over the value family, `PyList` component. -/
def pyListInduct (m1 : PyVal → Prop) (m2 : PyList → Prop) (m3 : PyKVs → Prop)
    (hnone : m1 .none) (hbool : ∀ b, m1 (.bool b)) (hint : ∀ i, m1 (.int i))
    (hstr : ∀ s, m1 (.str s)) (hmethod : ∀ s, m1 (.method s))
    (hfloat : ∀ s, m1 (.float s))
    (hlist : ∀ xs, m2 xs → m1 (.list xs)) (hdict : ∀ kvs, m3 kvs → m1 (.dict kvs))
    (hset : ∀ xs, m2 xs → m1 (.set xs)) (hobj : ∀ kvs, m3 kvs → m1 (.obj kvs))
    (hnil2 : m2 .nil) (hcons2 : ∀ x rest, m1 x → m2 rest → m2 (.cons x rest))
    (hnil3 : m3 .nil) (hcons3 : ∀ k v rest, m1 v → m3 rest → m3 (.cons k v rest)) :
    ∀ xs, m2 xs
  | .nil => hnil2
  | .cons x rest =>
    hcons2 x rest
      (pyValInduct m1 m2 m3 hnone hbool hint hstr hmethod hfloat hlist hdict hset hobj hnil2 hcons2 hnil3 hcons3
        x)
      (pyListInduct m1 m2 m3 hnone hbool hint hstr hmethod hfloat hlist hdict hset hobj hnil2 hcons2 hnil3 hcons3
        rest)

/-- Full mutual induction over the value family, `PyKVs` component. -/
def pyKVsInduct (m1 : PyVal → Prop) (m2 : PyList → Prop) (m3 : PyKVs → Prop)
    (hnone : m1 .none) (hbool : ∀ b, m1 (.bool b)) (hint : ∀ i, m1 (.int i))
    (hstr : ∀ s, m1 (.str s)) (hmethod : ∀ s, m1 (.method s))
    (hfloat : ∀ s, m1 (.float s))
    (hlist : ∀ xs, m2 xs → m1 (.list xs)) (hdict : ∀ kvs, m3 kvs → m1 (.dict kvs))
    (hset : ∀ xs, m2 xs → m1 (.set xs)) (hobj : ∀ kvs, m3 kvs → m1 (.obj kvs))
    (hnil2 : m2 .nil) (hcons2 : ∀ x rest, m1 x → m2 rest → m2 (.cons x rest))
    (hnil3 : m3 .nil) (hcons3 : ∀ k v rest, m1 v → m3 rest → m3 (.cons k v rest)) :
    ∀ kvs, m3 kvs
  | .nil => hnil3
  | .cons k v rest =>
    hcons3 k v rest
      (pyValInduct m1 m2 m3 hnone hbool hint hstr hmethod hfloat hlist hdict hset hobj hnil2 hcons2 hnil3 hcons3
        v)
      (pyKVsInduct m1 m2 m3 hnone hbool hint hstr hmethod hfloat hlist hdict hset hobj hnil2 hcons2 hnil3 hcons3
        rest)
end

/-- Digits of a decimal literal folded into a natural number. -/
def digitsToNat (ds : List Char) : Nat :=
  ds.foldl (fun a c => a * 10 + (c.toNat - 48)) 0

/-- Longest leading run of ASCII digits, with the remainder. -/
def takeDigitsA : List Char → List Char × List Char
  | [] => ([], [])
  | c :: cs =>
    if isDigitA c then
      let p := takeDigitsA cs
      (c :: p.1, p.2)
    else ([], c :: cs)

/-- An optionally signed run of digits read as an integer. -/
def decSigned : List Char → Int
  | '-' :: cs => -(digitsToNat (takeDigitsA cs).1 : Int)
  | '+' :: cs => (digitsToNat (takeDigitsA cs).1 : Int)
  | cs => (digitsToNat (takeDigitsA cs).1 : Int)

/-- A finite float literal read as an exact scaled decimal: the pair
`(m, e)` denotes `m * 10 ^ e`.  The non-finite literals `NaN`, `Infinity`
and `-Infinity` read as absent. -/
def parseDecF (lit : String) : Option (Int × Int) :=
  match lit.data with
  | '-' :: cs => (decCore cs).map (fun p => (-p.1, p.2))
  | cs => decCore cs
where
  decCore (cs : List Char) : Option (Int × Int) :=
    match takeDigitsA cs with
    | ([], _) => Option.none
    | (ip, r1) =>
      let fr : List Char × List Char :=
        match r1 with
        | '.' :: cs' => takeDigitsA cs'
        | _ => ([], r1)
      let ex : Int :=
        match fr.2 with
        | 'e' :: cs' => decSigned cs'
        | 'E' :: cs' => decSigned cs'
        | _ => 0
      Option.some ((digitsToNat (ip ++ fr.1) : Int), ex - (fr.1.length : Int))

/-- Order on scaled decimals, by aligning the exponents. -/
def decLeQ (a b : Int × Int) : Bool :=
  if a.2 ≤ b.2 then decide (a.1 ≤ b.1 * (10 : Int) ^ (b.2 - a.2).toNat)
  else decide (a.1 * (10 : Int) ^ (a.2 - b.2).toNat ≤ b.1)

def decEqQ (a b : Int × Int) : Bool :=
  decLeQ a b && decLeQ b a

/-- Python `<=` on two float literals: finite values compare by exact
decimal value, the infinities are extreme, and — as in Python 2 — every
comparison against `NaN` is false. -/
def floatLeF (a b : String) : Bool :=
  match parseDecF a, parseDecF b with
  | Option.some x, Option.some y => decLeQ x y
  | _, _ =>
    if a = "NaN" || b = "NaN" then false
    else if a = "-Infinity" then true
    else if b = "Infinity" then true
    else false

/-- Python `==` on two float literals (`NaN` equals nothing, itself
included). -/
def floatEqF (a b : String) : Bool :=
  match parseDecF a, parseDecF b with
  | Option.some x, Option.some y => decEqQ x y
  | _, _ => a == b && a != "NaN"

/-- Python `==` between a float and an integer. -/
def floatEqInt (a : String) (i : Int) : Bool :=
  match parseDecF a with
  | Option.some x => decEqQ x (i, 0)
  | Option.none => false

/-- Python `<=` with the float on the left and an integer on the right. -/
def floatLeInt (a : String) (i : Int) : Bool :=
  match parseDecF a with
  | Option.some x => decLeQ x (i, 0)
  | Option.none => a == "-Infinity"

/-- Python `<=` with an integer on the left and the float on the right. -/
def intLeFloat (i : Int) (b : String) : Bool :=
  match parseDecF b with
  | Option.some y => decLeQ (i, 0) y
  | Option.none => b == "Infinity"

/-- Python truthiness of a float: zero (a literal with no nonzero
mantissa digit) is falsy, everything else — the infinities and `NaN`
included — is truthy. -/
def floatTruthy (lit : String) : Bool :=
  (lit.data.takeWhile fun c => c != 'e' && c != 'E').any
    (fun c => (isDigitA c && c != '0') || c == 'N' || c == 'I')

mutual
/-- Python `==` restricted to the value model: structural equality plus
the numeric cross-type equalities of Python (`True == 1`,
`1 == 1.0`), floats comparing by exact decimal value. -/
def pyEq : PyVal → PyVal → Bool
  | .none, .none => true
  | .bool a, .bool b => a == b
  | .int a, .int b => a == b
  | .str a, .str b => a == b
  | .list a, .list b => pyEqL a b
  | .dict a, .dict b => pyEqK a b
  | .set a, .set b => pyEqL a b
  | .obj a, .obj b => pyEqK a b
  | .method a, .method b => a == b
  | .float a, .float b => floatEqF a b
  | .float a, .int b => floatEqInt a b
  | .int a, .float b => floatEqInt b a
  | .float a, .bool b => floatEqInt a (if b then 1 else 0)
  | .bool a, .float b => floatEqInt b (if a then 1 else 0)
  | .bool a, .int b => (if a then (1 : Int) else 0) == b
  | .int a, .bool b => a == (if b then 1 else 0)
  | _, _ => false

def pyEqL : PyList → PyList → Bool
  | .nil, .nil => true
  | .cons x xs, .cons y ys => pyEq x y && pyEqL xs ys
  | _, _ => false

def pyEqK : PyKVs → PyKVs → Bool
  | .nil, .nil => true
  | .cons k v kvs, .cons k' v' kvs' => k == k' && pyEq v v' && pyEqK kvs kvs'
  | _, _ => false
end

/-- Python truthiness (`if value:`) of a modelled value. -/
def pyTruthy : PyVal → Bool
  | .none => false
  | .bool b => b
  | .int i => i != 0
  | .str s => s ≠ ""
  | .list .nil => false
  | .list (.cons _ _) => true
  | .dict .nil => false
  | .dict (.cons _ _ _) => true
  | .set .nil => false
  | .set (.cons _ _) => true
  | .obj _ => true
  | .method _ => true
  | .float lit => floatTruthy lit

/-! ### Sets: `sorted(resource)` (source lines 162-163 and 253-254)

Python 2 `sorted` totally orders heterogeneous values (numbers first, then
by type name, then by value).  The resolver only needs a deterministic
total order, which we model by a rank followed by the value for scalars;
no claim depends on the relative order of two values of the same
aggregate type. -/

def pyRank : PyVal → Nat
  | .none => 0
  | .bool _ => 1
  | .int _ => 1
  | .dict _ => 2
  | .list _ => 3
  | .set _ => 4
  | .str _ => 5
  | .float _ => 1
  | .obj _ => 6
  | .method _ => 7

def pyLe (a b : PyVal) : Bool :=
  if pyRank a ≠ pyRank b then decide (pyRank a < pyRank b)
  else match a, b with
    | .bool x, .bool y => !x || y
    | .bool x, .int j => (if x then 1 else 0) ≤ j
    | .int i, .bool y => i ≤ (if y then 1 else 0)
    | .int i, .int j => i ≤ j
    | .float a, .float b => floatLeF a b
    | .float a, .int j => floatLeInt a j
    | .int i, .float b => intLeFloat i b
    | .float a, .bool y => floatLeInt a (if y then 1 else 0)
    | .bool x, .float b => intLeFloat (if x then 1 else 0) b
    | .str s, .str t => s ≤ t
    | _, _ => true

def pyInsert (x : PyVal) : PyList → PyList
  | .nil => .cons x .nil
  | .cons y rest => if pyLe x y then .cons x (.cons y rest) else .cons y (pyInsert x rest)

def pySort : PyList → PyList
  | .nil => .nil
  | .cons x rest => pyInsert x (pySort rest)

/-- Lines 162-163 and 253-254: a set is replaced by its sorted sequence
form before any indexed access and before being returned. -/
def sortIfSet : PyVal → PyVal
  | .set xs => .list (pySort xs)
  | r => r

/-! ### `json.loads` (used by `_GetMetaDataValue` with `deserialize=True`)

A recursive-descent parser for Python 2.7 `json.loads` on a string:
objects, arrays, strings with the standard escapes (`\uXXXX` included,
surrogate pairs combined as on a wide build; a lone surrogate, which
CPython would keep as an unpaired code unit, has no Lean counterpart and
reads as a failure), integers, floats (including the `NaN`/`Infinity`
extensions the CPython decoder accepts by default), `true`/`false`/
`null`.  CPython's `unicode` results are carried by the model's one
string type.  A parse failure is a `ValueError`, which the caller folds
into "return the raw value" (the `except` of source lines 84-87). -/

def skipWs : List Char → List Char
  | [] => []
  | c :: rest => if c = ' ' || c = '\t' || c = '\n' || c = '\r' then skipWs rest else c :: rest

theorem skipWs_length_le : ∀ cs : List Char, (skipWs cs).length ≤ cs.length := by
  intro cs
  induction cs with
  | nil => simp [skipWs]
  | cons c rest ih =>
    rw [skipWs]
    split
    · exact Nat.le_trans ih (Nat.le_succ _)
    · simp

def hexDigitVal (c : Char) : Option Nat :=
  if isDigitA c then Option.some (c.toNat - 48)
  else if 'a' ≤ c && c ≤ 'f' then Option.some (c.toNat - 87)
  else if 'A' ≤ c && c ≤ 'F' then Option.some (c.toNat - 55)
  else Option.none

def hex4 (a b c d : Char) : Option Nat :=
  match hexDigitVal a, hexDigitVal b, hexDigitVal c, hexDigitVal d with
  | Option.some x, Option.some y, Option.some z, Option.some w =>
    Option.some (((x * 16 + y) * 16 + z) * 16 + w)
  | _, _, _, _ => Option.none

def jsonStringBody (fuel : Nat) (cs : List Char) (acc : List Char) : Option (String × List Char) :=
  match fuel with
  | 0 => Option.none
  | fuel + 1 =>
    match cs with
    | [] => Option.none
    | '"' :: rest => Option.some (String.mk acc.reverse, rest)
    | '\\' :: 'u' :: a :: b :: c :: d :: rest =>
      (match hex4 a b c d with
       | Option.none => Option.none
       | Option.some n =>
         if n < 0xD800 || 0xE000 ≤ n then jsonStringBody fuel rest (Char.ofNat n :: acc)
         else if n < 0xDC00 then
           match rest with
           | '\\' :: 'u' :: a2 :: b2 :: c2 :: d2 :: rest2 =>
             (match hex4 a2 b2 c2 d2 with
              | Option.some p =>
                if 0xDC00 ≤ p && p < 0xE000 then
                  jsonStringBody fuel rest2
                    (Char.ofNat (0x10000 + (n - 0xD800) * 0x400 + (p - 0xDC00)) :: acc)
                else Option.none
              | Option.none => Option.none)
           | _ => Option.none
         else Option.none)
    | '\\' :: e :: rest =>
      let esc : Option Char :=
        if e = '"' then Option.some '"'
        else if e = '\\' then Option.some '\\'
        else if e = '/' then Option.some '/'
        else if e = 'b' then Option.some '\x08'
        else if e = 'f' then Option.some '\x0C'
        else if e = 'n' then Option.some '\n'
        else if e = 't' then Option.some '\t'
        else if e = 'r' then Option.some '\r'
        else Option.none
      match esc with
      | Option.some c => jsonStringBody fuel rest (c :: acc)
      | Option.none => Option.none
    | '\\' :: [] => Option.none
    | c :: rest =>
      if c.toNat < 32 then Option.none else jsonStringBody fuel rest (c :: acc)

/-- Number grammar of the Python 2 `json` scanner,
`(-?(0|[1-9]\d*))(\.\d+)?([eE][-+]?\d+)?`: an integer part that stops
after a leading zero, an optional complete fraction, an optional complete
exponent — an incomplete group is left unconsumed, as with the regex,
whose unconsumed remainder then fails the caller.  A matched fraction or
exponent makes the value a float carrying its literal; otherwise it is an
integer. -/
def jsonNumber (cs : List Char) : Option (PyVal × List Char) :=
  let sign : Bool :=
    match cs with
    | '-' :: _ => true
    | _ => false
  let cs1 : List Char := if sign then cs.tail else cs
  let ipr : List Char × List Char :=
    match cs1 with
    | '0' :: rest => (['0'], rest)
    | _ => takeDigitsA cs1
  match ipr with
  | ([], _) => Option.none
  | (ip, r1) =>
    let fpr : List Char × List Char :=
      match r1 with
      | '.' :: cs2 =>
        (match takeDigitsA cs2 with
         | ([], _) => ([], r1)
         | (ds, r) => ('.' :: ds, r))
      | _ => ([], r1)
    let epr : List Char × List Char :=
      match fpr.2 with
      | e :: cs3 =>
        if e = 'e' || e = 'E' then
          match cs3 with
          | c :: cs4 =>
            if c = '+' || c = '-' then
              (match takeDigitsA cs4 with
               | ([], _) => ([], fpr.2)
               | (ds, r) => (e :: c :: ds, r))
            else
              (match takeDigitsA cs3 with
               | ([], _) => ([], fpr.2)
               | (ds, r) => (e :: ds, r))
          | [] => ([], fpr.2)
        else ([], fpr.2)
      | [] => ([], fpr.2)
    if fpr.1.isEmpty && epr.1.isEmpty then
      Option.some (.int (if sign then -(digitsToNat ip : Int) else (digitsToNat ip : Int)), r1)
    else
      Option.some
        (.float (String.mk ((if sign then ['-'] else []) ++ ip ++ fpr.1 ++ epr.1)), epr.2)

mutual
def jsonValue (fuel : Nat) (cs : List Char) : Option (PyVal × List Char) :=
  match fuel with
  | 0 => Option.none
  | fuel + 1 =>
    match skipWs cs with
    | [] => Option.none
    | 'n' :: 'u' :: 'l' :: 'l' :: rest => Option.some (.none, rest)
    | 't' :: 'r' :: 'u' :: 'e' :: rest => Option.some (.bool true, rest)
    | 'f' :: 'a' :: 'l' :: 's' :: 'e' :: rest => Option.some (.bool false, rest)
    | '"' :: rest =>
      match jsonStringBody (rest.length + 1) rest [] with
      | Option.some (s, rest') => Option.some (.str s, rest')
      | Option.none => Option.none
    | '[' :: rest =>
      (match skipWs rest with
       | ']' :: rest' => Option.some (.list .nil, rest')
       | _ =>
         match jsonItems fuel rest with
         | Option.some (xs, rest') => Option.some (.list xs, rest')
         | Option.none => Option.none)
    | '\x7b' :: rest =>
      (match skipWs rest with
       | '\x7d' :: rest' => Option.some (.dict .nil, rest')
       | _ =>
         match jsonMembers fuel rest with
         | Option.some (kvs, rest') => Option.some (.dict kvs, rest')
         | Option.none => Option.none)
    | 'N' :: 'a' :: 'N' :: rest => Option.some (.float "NaN", rest)
    | 'I' :: 'n' :: 'f' :: 'i' :: 'n' :: 'i' :: 't' :: 'y' :: rest =>
      Option.some (.float "Infinity", rest)
    | '-' :: 'I' :: 'n' :: 'f' :: 'i' :: 'n' :: 'i' :: 't' :: 'y' :: rest =>
      Option.some (.float "-Infinity", rest)
    | cs' => jsonNumber cs'

def jsonItems (fuel : Nat) (cs : List Char) : Option (PyList × List Char) :=
  match fuel with
  | 0 => Option.none
  | fuel + 1 =>
    match jsonValue fuel cs with
    | Option.none => Option.none
    | Option.some (v, rest) =>
      match skipWs rest with
      | ',' :: rest' =>
        (match jsonItems fuel rest' with
         | Option.some (xs, rest'') => Option.some (.cons v xs, rest'')
         | Option.none => Option.none)
      | ']' :: rest' => Option.some (.cons v .nil, rest')
      | _ => Option.none

def jsonMembers (fuel : Nat) (cs : List Char) : Option (PyKVs × List Char) :=
  match fuel with
  | 0 => Option.none
  | fuel + 1 =>
    match skipWs cs with
    | '"' :: rest =>
      (match jsonStringBody (rest.length + 1) rest [] with
       | Option.some (k, rest') =>
         (match skipWs rest' with
          | ':' :: rest'' =>
            (match jsonValue fuel rest'' with
             | Option.none => Option.none
             | Option.some (v, rest3) =>
               match skipWs rest3 with
               | ',' :: rest4 =>
                 (match jsonMembers fuel rest4 with
                  | Option.some (kvs, rest5) => Option.some (.cons k v kvs, rest5)
                  | Option.none => Option.none)
               | '\x7d' :: rest4 => Option.some (.cons k v .nil, rest4)
               | _ => Option.none)
          | _ => Option.none)
       | Option.none => Option.none)
    | _ => Option.none
end

/-- Python `json.loads` on a string: parse one value and require only
trailing whitespace after it. -/
def jsonLoads (s : String) : Option PyVal :=
  match jsonValue (s.length + 1) s.data with
  | Option.some (v, rest) => if skipWs rest = [] then Option.some v else Option.none
  | Option.none => Option.none

/-! ### Identifier case conversion (source lines 21-22 and 91-104) -/

/-- Python `name.split(sep)` for a one-character separator: splitting never
yields an empty list, and consecutive separators yield empty segments. -/
def splitU : List Char → List (List Char)
  | [] => [[]]
  | c :: rest =>
    if c = '_' then [] :: splitU rest
    else
      match splitU rest with
      | [] => [[c]]
      | s :: ss => (c :: s) :: ss

theorem splitU_ne_nil : ∀ cs : List Char, splitU cs ≠ [] := by
  intro cs
  induction cs with
  | nil => simp [splitU]
  | cons c rest ih =>
    rw [splitU]
    split
    · simp
    · split
      · simp
      · simp

/-- Python `x.title()`: each cased character is uppercased when the
preceding character is not cased and lowercased otherwise (`prevAlpha`
tracks whether the previous character was cased). -/
def titleChars : List Char → Bool → List Char
  | [], _ => []
  | c :: rest, prevAlpha =>
    (if isAlphaA c then (if prevAlpha then downChar c else upChar c) else c)
      :: titleChars rest (isAlphaA c)

/-- Source lines 91-94: split on an underscore, keep the first segment,
title-case and concatenate the remaining segments. -/
def camelChars (cs : List Char) : List Char :=
  match splitU cs with
  | [] => []
  | s0 :: rest => s0 ++ (rest.map (fun seg => titleChars seg false)).flatten

def ConvertToCamelCase (name : String) : String :=
  String.mk (camelChars name.data)

/-! The substitution performed by `_SNAKE_RE.sub` (source lines 21-22):
an underscore is inserted before every non-overlapping, leftmost-first
match of

  `(?<=[a-z0-9])[A-Z]+(?=[A-Z][a-z]|$)  |  (?!^)[A-Z](?=[a-z])`

Matches start on an uppercase letter A with, alternative 1 (greedy with
backtracking into the lookahead): a lowercase letter or digit before A and
the matched uppercase run either reaching the end of the string or being
followed by an uppercase-then-lowercase pair; alternative 2: A not at the
start and followed by a lowercase letter.  Because every position strictly
inside a matched run has an uppercase predecessor (failing the lookbehind
of alternative 1 and never being followed by a lowercase letter until the
run's last position, which the scan revisits), the scan inserts an
underscore exactly before the positions at which one of the two
alternatives matches, which is how `snakeSub` is phrased. -/

/-- Length of the maximal uppercase prefix. -/
def upRunLen : List Char → Nat
  | [] => 0
  | c :: rest => if isUpperA c then 1 + upRunLen rest else 0

/-- Does a match of the substituted regex start at this position?
`prev` is the preceding character (`Option.none` at the start of the
string) and `c :: rest` is the remaining input. -/
def snakeMatchHere (prev : Option Char) (c : Char) (rest : List Char) : Bool :=
  isUpperA c &&
    ((match prev with
      | Option.none => false
      | Option.some p =>
        (isLowerA p || isDigitA p) &&
          (let m := 1 + upRunLen rest
           match rest.drop (m - 1) with
           | [] => true
           | a :: _ => decide (2 ≤ m) && isLowerA a)) ||
     (match prev, rest with
      | Option.some _, a :: _ => isLowerA a
      | _, _ => false))

/-- Insert an underscore before every matching position. -/
def snakeSub (prev : Option Char) : List Char → List Char
  | [] => []
  | c :: rest =>
    (if snakeMatchHere prev c rest then ['_', c] else [c]) ++ snakeSub (Option.some c) rest

/-- Source lines 97-99. -/
def ConvertToSnakeCase (name : String) : String :=
  String.mk ((snakeSub Option.none name.data).map downChar)

/-- Source lines 102-104. -/
def ConvertToAngrySnakeCase (name : String) : String :=
  String.mk ((snakeSub Option.none name.data).map upChar)

/-! ### The matching engine (source lines 107-131) -/

def keyToVal : Key → PyVal
  | .name s => .str s
  | .idx i => .int i
  | .slice => .none

/-- Python truthiness of a raw key value (`if name:` at lines 189 and 212). -/
def keyTruthy : Key → Bool
  | .name s => s ≠ ""
  | .idx i => i != 0
  | .slice => false

/-- The `for convert in [ConvertToCamelCase, ConvertToSnakeCase]` loop of
`GetMatchingIndex` (lines 113-116). -/
def convertLoop (convs : List (String → String)) (s : String) (func : Key → Bool) : Option Key :=
  match convs with
  | [] => Option.none
  | conv :: more =>
    let n := conv s
    if func (.name n) then Option.some (.name n) else convertLoop more s func

/-- Source lines 107-117. -/
def GetMatchingIndex (index : Key) (func : Key → Bool) : Option Key :=
  if func index then Option.some index
  else
    match index with
    | .name s => convertLoop [ConvertToCamelCase, ConvertToSnakeCase] s func
    | _ => Option.none

/-- The conversion loop of `GetMatchingIndexValue` (lines 127-130). -/
def convertValLoop (convs : List (String → String)) (s : String) (func : PyVal → PyVal) : PyVal :=
  match convs with
  | [] => .none
  | conv :: more =>
    let v := func (.str (conv s))
    if pyTruthy v then v else convertValLoop more s func

/-- Source lines 120-131. -/
def GetMatchingIndexValue (index : Key) (func : PyVal → PyVal) : PyVal :=
  let v := func (keyToVal index)
  if pyTruthy v then v
  else
    match index with
    | .name s => convertValLoop [ConvertToCamelCase, ConvertToSnakeCase] s func
    | _ => .none

/-! ### The metadata dict resolver (source lines 25-88) -/

/-- The scan of `_GetMetaDict`: a non-mapping item raises `AttributeError`
on `item.get`, which the `except` at line 47 folds into `None` aborting
the whole scan. -/
def metaScan : PyList → String → PyVal → PyVal
  | .nil, _, _ => .none
  | .cons (.dict kvs) rest, k, v =>
    if pyEq (kvs.get k .none) v then .dict kvs else metaScan rest k v
  | .cons _ _, _, _ => .none

/-- Source lines 25-49 (`_GetMetaDict`): iterating a non-sequence raises
`TypeError`, caught at line 47; iterating a mapping or string yields
non-mapping items whose `.get` raises `AttributeError`, also caught. -/
def GetMetaDict (items : PyVal) (key : String) (value : PyVal) : PyVal :=
  match items with
  | .list xs => metaScan xs key value
  | .set xs => metaScan xs key value
  | _ => .none

/-- Source lines 52-88 (`_GetMetaDataValue`): on `deserialize`, a failed
or inapplicable `json.loads` (`TypeError`/`ValueError`, lines 86-87) falls
back to the raw value. -/
def GetMetaDataValue (items : PyVal) (name : PyVal) (deserialize : Bool) : PyVal :=
  match GetMetaDict items "key" name with
  | .dict kvs =>
    let value := kvs.get "value" .none
    if deserialize then
      match value with
      | .str s =>
        (match jsonLoads s with
         | Option.some v => v
         | Option.none => value)
      | _ => value
    else value
  | _ => .none

/-! ### The path resolver `Get` (source lines 134-256) -/

/-- The uncaught exceptions the resolver can raise, plus a fuel sentinel
used to phrase the iteration as structural recursion; `getAux_master`
below proves the sentinel unreachable for the fuel `Get` supplies. -/
inductive PyErr : Type where
  | attributeError : PyErr
  | typeError : PyErr
  | fuelExhausted : PyErr
  deriving DecidableEq, Repr

/-- The instance attributes of a CPython 2.7 `list`, as `dir([])` lists
them: the builtin methods and the class-level dunders.  Probing any of
them with `hasattr` succeeds. -/
def listAttrNames : List String :=
  ["__add__", "__class__", "__contains__", "__delattr__", "__delitem__",
   "__delslice__", "__doc__", "__eq__", "__format__", "__ge__",
   "__getattribute__", "__getitem__", "__getslice__", "__gt__", "__hash__",
   "__iadd__", "__imul__", "__init__", "__iter__", "__le__", "__len__",
   "__lt__", "__mul__", "__ne__", "__new__", "__reduce__", "__reduce_ex__",
   "__repr__", "__reversed__", "__rmul__", "__setattr__", "__setitem__",
   "__setslice__", "__sizeof__", "__str__", "__subclasshook__", "append",
   "count", "extend", "index", "insert", "pop", "remove", "reverse", "sort"]

/-- The instance attributes of a CPython 2.7 `str`, as `dir('')` lists
them.  Note there is no `__iter__`: Python 2 strings iterate through
`__getitem__`, which is why line 216 of the source also tests
`isinstance(resource, basestring)`. -/
def strAttrNames : List String :=
  ["__add__", "__class__", "__contains__", "__delattr__", "__doc__",
   "__eq__", "__format__", "__ge__", "__getattribute__", "__getitem__",
   "__getnewargs__", "__getslice__", "__gt__", "__hash__", "__init__",
   "__le__", "__len__", "__lt__", "__mod__", "__mul__", "__ne__", "__new__",
   "__reduce__", "__reduce_ex__", "__repr__", "__rmul__", "__setattr__",
   "__sizeof__", "__str__", "__subclasshook__",
   "_formatter_field_name_split", "_formatter_parser", "capitalize",
   "center", "count", "decode", "encode", "endswith", "expandtabs", "find",
   "format", "index", "isalnum", "isalpha", "isdigit", "islower", "isspace",
   "istitle", "isupper", "join", "ljust", "lower", "lstrip", "partition",
   "replace", "rfind", "rindex", "rjust", "rpartition", "rsplit", "rstrip",
   "split", "splitlines", "startswith", "strip", "swapcase", "title",
   "translate", "upper", "zfill"]

/-- The instance attributes of a CPython 2.7 `int`, as `dir(0)` lists
them; a `bool` instance exposes the same set (the subclass adds no
names). -/
def numAttrNames : List String :=
  ["__abs__", "__add__", "__and__", "__class__", "__cmp__", "__coerce__",
   "__delattr__", "__div__", "__divmod__", "__doc__", "__float__",
   "__floordiv__", "__format__", "__getattribute__", "__getnewargs__",
   "__hash__", "__hex__", "__index__", "__init__", "__int__", "__invert__",
   "__long__", "__lshift__", "__mod__", "__mul__", "__neg__", "__new__",
   "__nonzero__", "__oct__", "__or__", "__pos__", "__pow__", "__radd__",
   "__rand__", "__rdiv__", "__rdivmod__", "__reduce__", "__reduce_ex__",
   "__repr__", "__rfloordiv__", "__rlshift__", "__rmod__", "__rmul__",
   "__ror__", "__rpow__", "__rrshift__", "__rshift__", "__rsub__",
   "__rtruediv__", "__rxor__", "__setattr__", "__sizeof__", "__str__",
   "__sub__", "__truediv__", "__trunc__", "__xor__", "bit_length",
   "conjugate", "denominator", "imag", "numerator", "real"]

/-- The instance attributes of a CPython 2.7 `float`, as `dir(0.0)` lists
them. -/
def floatAttrNames : List String :=
  ["__abs__", "__add__", "__class__", "__coerce__", "__delattr__",
   "__div__", "__divmod__", "__doc__", "__eq__", "__float__",
   "__floordiv__", "__format__", "__ge__", "__getattribute__",
   "__getformat__", "__getnewargs__", "__gt__", "__hash__", "__init__",
   "__int__", "__le__", "__long__", "__lt__", "__mod__", "__mul__",
   "__ne__", "__neg__", "__new__", "__nonzero__", "__pos__", "__pow__",
   "__radd__", "__rdiv__", "__rdivmod__", "__reduce__", "__reduce_ex__",
   "__repr__", "__rfloordiv__", "__rmod__", "__rmul__", "__rpow__",
   "__rsub__", "__rtruediv__", "__setattr__", "__setformat__",
   "__sizeof__", "__str__", "__sub__", "__truediv__", "__trunc__",
   "as_integer_ratio", "conjugate", "fromhex", "hex", "imag", "is_integer",
   "real"]

/-- Python `hasattr(resource, x)` at the class-branch probe of line 211,
for the shapes that can reach it.  Attribute objects answer from their
attribute table; `list`, `str`, `int`, `bool` and `float` instances
answer from the builtin tables above.  Mappings never reach the probe
(line 178 diverts them first), `None` never does (line 169 returns
first), and sets never do (line 162 replaces them by sorted lists);
attribute lookup on an opaque bound-method value (`im_self`, `im_func`,
`func_name`, ...) is the one probe left out of the model — every theorem
below either keeps such values terminal by hypothesis or consults only
whether `Get` terminates. -/
def pyHasattr (r : PyVal) (a : String) : Bool :=
  match r with
  | .obj attrs => attrs.has a
  | .list _ => listAttrNames.contains a
  | .str _ => strAttrNames.contains a
  | .int _ => numAttrNames.contains a
  | .bool _ => numAttrNames.contains a
  | .float _ => floatAttrNames.contains a
  | _ => false

/-- Python `getattr(resource, name, default)` (line 213).  Attribute
objects answer from their table.  On a builtin instance, the numeric
views `real`, `imag`, `numerator` and `denominator` yield their actual
numbers; every other builtin attribute (the bound methods, and class
data such as `__doc__`) is carried as the opaque `method` token, whose
content no modelled operation consults. -/
def objGetattr (r : PyVal) (n : String) (dflt : PyVal) : PyVal :=
  match r with
  | .obj attrs => attrs.get n dflt
  | .int i =>
    if numAttrNames.contains n then
      if n = "real" || n = "numerator" then .int i
      else if n = "imag" then .int 0
      else if n = "denominator" then .int 1
      else .method n
    else dflt
  | .bool b =>
    if numAttrNames.contains n then
      if n = "real" || n = "numerator" then .int (if b then 1 else 0)
      else if n = "imag" then .int 0
      else if n = "denominator" then .int 1
      else .method n
    else dflt
  | .float lit =>
    if floatAttrNames.contains n then
      if n = "real" then .float lit
      else if n = "imag" then .float "0.0"
      else .method n
    else dflt
  | .list _ => if listAttrNames.contains n then .method n else dflt
  | .str _ => if strAttrNames.contains n then .method n else dflt
  | _ => dflt

/-- Python truthiness of the pending metadata key at line 173 (`if
meta:`): only a non-empty pending string activates the metadata lookup —
an empty string set at line 234 is carried along but never acts, exactly
as in the source. -/
def metaActive : Option String → Bool
  | Option.some m => m ≠ ""
  | Option.none => false

/-- Python `hasattr(resource, 'iteritems')` at line 178: true of
mappings and of attribute objects whose table holds an entry named
`iteritems`; false of every builtin sequence and scalar (and of sets,
which line 162 has already replaced by sorted lists). -/
def hasIteritems : PyVal → Bool
  | .dict _ => true
  | .obj attrs => attrs.has "iteritems"
  | _ => false

/-- Python `resource[name]` for the key returned by `GetMatchingIndex` in the
dict branch (line 190); that key is always a string present in the dict. -/
def dictLookupKey (kvs : PyKVs) : Key → PyVal
  | .name n => kvs.get n .none
  | _ => .none

def PyList.nth : PyList → Nat → PyVal
  | .nil, _ => .none
  | .cons x _, 0 => x
  | .cons _ rest, n + 1 => rest.nth n

/-- Python `resource[index]` for an in-range integer index, negative counting
from the end (line 247). -/
def listIdx (xs : PyList) (i : Int) : PyVal :=
  if i < 0 then xs.nth ((i + (xs.length : Int)).toNat) else xs.nth i.toNat

/-- Python `resource[index]` on a string: a one-character string. -/
def strIdx (s : String) (i : Int) : PyVal :=
  let j : Int := if i < 0 then i + (s.length : Int) else i
  .str (String.mk [s.data.getD j.toNat ' '])

def headIsDict : PyList → Bool
  | .cons (.dict _) _ => true
  | _ => false

/-- The comprehension `[d.get(index) for d in resource]` of line 241:
elements are read left to right and a non-mapping element raises an
uncaught `AttributeError`. -/
def dictSliceReads : PyList → String → Except PyErr (List PyVal)
  | .nil, _ => .ok []
  | .cons x rest, s =>
    match x with
    | .dict kvs => (dictSliceReads rest s).map (fun vs => kvs.get s .none :: vs)
    | _ => .error .attributeError

/-- Line 241: `filter(None, [d.get(index) for d in resource]) or default`. -/
def collectLast (xs : PyList) (s : String) (dflt : PyVal) : Except PyErr PyVal :=
  match dictSliceReads xs s with
  | .error e => .error e
  | .ok vs =>
    let fv := vs.filter pyTruthy
    if fv.isEmpty then .ok dflt else .ok (.list (PyList.ofListV fv))

/-- A list comprehension over fallible element computations: elements are
evaluated left to right and the first raised error propagates. -/
def exceptMapM {α : Type} (f : α → Except PyErr PyVal) : List α → Except PyErr (List PyVal)
  | [] => .ok []
  | a :: l =>
    match f a with
    | .error e => .error e
    | .ok v =>
      match exceptMapM f l with
      | .error e => .error e
      | .ok vs => .ok (v :: vs)

/-- Weight of the remaining path: a slice key weighs two because the slice
fan-out re-enters the loop on a path of the same length whose head is a
one-weight key. -/
def pathWeight : List Key → Nat
  | [] => 0
  | .slice :: rest => 2 + pathWeight rest
  | _ :: rest => 1 + pathWeight rest

/-- The loop of `Get` (source lines 160-256), phrased as recursion on the
remaining path.  `meta` is the pending metadata key name of lines 173-176
and 226-234, carried verbatim between iterations — so a pending empty
string rides along inactive forever, exactly as under `if meta:` at line
173.  `fuel` bounds the recursion depth (each call strictly decreases
`pathWeight`, so `pathWeight path + 1` suffices, see `getAux_master`). -/
def GetAuxF (fuel : Nat) (meta : Option String) (resource : PyVal) (path : List Key)
    (default : PyVal) : Except PyErr PyVal :=
  match fuel with
  | 0 => .error .fuelExhausted
  | fuel + 1 =>
    match path with
    | [] => .ok (sortIfSet resource)
    | index :: rest =>
      match sortIfSet resource with
      | .none => .ok default
      | r =>
        if metaActive meta then
          GetAuxF fuel Option.none (GetMetaDict r (meta.getD "") (keyToVal index)) rest default
        else if hasIteritems r then
          match r with
          | .dict kvs =>
            -- dict-like branch, lines 178-207
            (match index with
             | .slice =>
               if rest.isEmpty then .ok (.dict kvs)
               else
                 ((exceptMapM
                    (fun k => GetAuxF fuel Option.none (.dict kvs) (.name k :: rest) default)
                    kvs.keys).map
                   (fun vs => PyVal.list (PyList.ofListV vs)))
             | _ =>
               match GetMatchingIndex index (fun x =>
                   match x with
                   | .name n => kvs.has n
                   | _ => false) with
               | Option.some nm =>
                 if keyTruthy nm then
                   GetAuxF fuel meta (dictLookupKey kvs nm) rest default
                 else if kvs.has "items" then
                   GetAuxF fuel meta
                     (GetMatchingIndexValue index
                       (fun nv => GetMetaDataValue (kvs.get "items" .none) nv (!rest.isEmpty)))
                     rest default
                 else .ok default
               | Option.none =>
                 if kvs.has "items" then
                   GetAuxF fuel meta
                     (GetMatchingIndexValue index
                       (fun nv => GetMetaDataValue (kvs.get "items" .none) nv (!rest.isEmpty)))
                     rest default
                 else .ok default)
          | r' =>
            -- an attribute object exposing an entry named `iteritems`:
            -- iterating it (line 183) or probing membership with `in`
            -- (line 188) raises an uncaught TypeError on the bare
            -- instance, so only the trailing slice (line 186), which
            -- returns the resource itself, completes normally
            (match index with
             | .slice => if rest.isEmpty then .ok r' else .error .typeError
             | _ => .error .typeError)
        else
          -- class-like branch, lines 209-214; a truthy attribute-name
          -- match descends, anything else falls to the list-like branch
          let clsHit : Option PyVal :=
            match index with
            | .name s =>
              (match GetMatchingIndex (.name s) (fun x =>
                  match x with
                  | .name n => pyHasattr r n
                  | _ => false) with
               | Option.some (.name n) =>
                 if n ≠ "" then Option.some (objGetattr r n default) else Option.none
               | _ => Option.none)
            | _ => Option.none
          match clsHit with
          | Option.some v => GetAuxF fuel meta v rest default
          | Option.none =>
            -- list-like branch, lines 216-251 (entered by values with
            -- a sequence's iteration capability and by strings)
            match r with
            | .list xs =>
              (match index with
               | .slice =>
                 if rest.isEmpty then .ok (.list xs)
                 else
                   ((exceptMapM
                      (fun (k : Nat) =>
                        GetAuxF fuel Option.none (.list xs) (.idx (k : Int) :: rest) default)
                      (List.range xs.length)).map
                     (fun vs => PyVal.list (PyList.ofListV vs)))
               | .name s =>
                 -- lines 226-244: non-integer index against a sequence
                 if 0 < xs.length && headIsDict xs then
                   if rest.isEmpty then collectLast xs s default
                   else GetAuxF fuel (Option.some s) (.list xs) rest default
                 else .ok default
               | .idx i =>
                 if -(xs.length : Int) ≤ i && i < (xs.length : Int) then
                   GetAuxF fuel meta (listIdx xs i) rest default
                 else .ok default)
            | .str s =>
              (match index with
               | .slice =>
                 if rest.isEmpty then .ok (.str s)
                 else
                   ((exceptMapM
                      (fun (k : Nat) =>
                        GetAuxF fuel Option.none (.str s) (.idx (k : Int) :: rest) default)
                      (List.range s.length)).map
                     (fun vs => PyVal.list (PyList.ofListV vs)))
               | .name _ => .ok default
               | .idx i =>
                 if -(s.length : Int) ≤ i && i < (s.length : Int) then
                   GetAuxF fuel meta (strIdx s i) rest default
                 else .ok default)
            | .obj attrs =>
              -- line 216 through an instance attribute named `__iter__`:
              -- `len(resource)` (lines 222 and 246) raises an uncaught
              -- TypeError on the bare instance, a string index fails the
              -- `isinstance(resource, list)` test of line 228 and falls
              -- to the default (line 244), and the trailing slice
              -- returns the resource itself (line 224)
              if attrs.has "__iter__" then
                (match index with
                 | .slice => if rest.isEmpty then .ok (.obj attrs) else .error .typeError
                 | .name _ => .ok default
                 | .idx _ => .error .typeError)
              else .ok default
            | _ => .ok default

/-- Python `Get(resource, key, default)` (source lines 134-256). -/
def Get (resource : PyVal) (path : List Key) (default : PyVal) : Except PyErr PyVal :=
  GetAuxF (pathWeight path + 1) Option.none resource path default

instance {ε α : Type} [DecidableEq ε] [DecidableEq α] : DecidableEq (Except ε α) := fun a b =>
  match a, b with
  | .ok x, .ok y =>
    if h : x = y then Decidable.isTrue (by rw [h]) else Decidable.isFalse (by simp [h])
  | .error e, .error f =>
    if h : e = f then Decidable.isTrue (by rw [h]) else Decidable.isFalse (by simp [h])
  | .ok _, .error _ => Decidable.isFalse (by simp)
  | .error _, .ok _ => Decidable.isFalse (by simp)

/-! ### The global restriction evaluator (source lines 259-311) -/

/-- Python `str()` of the scalars the number branch (line 286-290) can
receive. -/
def pyStrNum : PyVal → String
  | .bool b => if b then "True" else "False"
  | .int i => toString i
  | .float lit => lit
  | _ => ""

/-- Python `key.startswith(an underscore)` (lines 293 and 306). -/
def underPrefixed (k : String) : Bool :=
  match k.data with
  | '_' :: _ => true
  | _ => false

mutual
/-- Source lines 259-311 (`EvaluateGlobalRestriction`).  The compiled
regular expression is abstracted as a predicate on the strings it is
searched against.  Falsy resources fail immediately (line 279-280);
strings and numbers are searched (lines 281-290); mappings recurse into
values of keys without the internal-marker prefix via `iteritems` (lines
291-295); sequences and sets recurse into elements (lines 296-303);
attribute objects recurse into their non-internal `__dict__` entries
(lines 304-310); everything falls through to `False`. -/
def EvaluateGlobalRestriction (resource : PyVal) (restriction : String)
    (pattern : String → Bool) : Bool :=
  if !pyTruthy resource then false
  else
    match resource with
    | .str s => pattern s
    | .bool b => pattern (pyStrNum (.bool b))
    | .int i => pattern (pyStrNum (.int i))
    | .float lit => pattern (pyStrNum (.float lit))
    | .dict kvs => evalKVs kvs restriction pattern
    | .list xs => evalElems xs restriction pattern
    | .set xs => evalElems xs restriction pattern
    | .obj attrs => evalKVs attrs restriction pattern
    | .method _ => false
    | .none => false

/-- The `for value in resource` loop of lines 298-301. -/
def evalElems (xs : PyList) (restriction : String) (pattern : String → Bool) : Bool :=
  match xs with
  | .nil => false
  | .cons x rest =>
    EvaluateGlobalRestriction x restriction pattern || evalElems rest restriction pattern

/-- The `for key, value in ...iteritems()` loops of lines 292-295 and
305-308: values under keys starting with an underscore are skipped. -/
def evalKVs (kvs : PyKVs) (restriction : String) (pattern : String → Bool) : Bool :=
  match kvs with
  | .nil => false
  | .cons k v rest =>
    (!underPrefixed k && EvaluateGlobalRestriction v restriction pattern) ||
      evalKVs rest restriction pattern
end

/-! ### The list-likeness classifier (source lines 314-324) -/

/-- Python `hasattr` for the two capability names the classifier probes.
In Python 2, `list`, `set` and `dict` instances have `__iter__` but no
`next` method; strings and numbers have neither; an iterator-shaped
attribute object has whatever its attribute table holds. -/
def pyHasattrCap (r : PyVal) (a : String) : Bool :=
  match r with
  | .obj attrs => attrs.has a
  | .list _ => a = "__iter__"
  | .set _ => a = "__iter__"
  | .dict _ => a = "__iter__"
  | _ => false

/-- Source lines 314-324. -/
def IsListLike (resource : PyVal) : Bool :=
  (match resource with
   | .list _ => true
   | _ => false) ||
    (pyHasattrCap resource "__iter__" && pyHasattrCap resource "next")

/-! ### Scrubbing of internal-marker values (for claim C7)

Two resources "differ only in the values stored under underscore-prefixed
keys" exactly when scrubbing those values to a fixed placeholder makes
them equal. -/

mutual
def scrub : PyVal → PyVal
  | .dict kvs => .dict (scrubKVs kvs)
  | .obj attrs => .obj (scrubKVs attrs)
  | .list xs => .list (scrubL xs)
  | .set xs => .set (scrubL xs)
  | r => r

def scrubL : PyList → PyList
  | .nil => .nil
  | .cons x rest => .cons (scrub x) (scrubL rest)

def scrubKVs : PyKVs → PyKVs
  | .nil => .nil
  | .cons k v rest =>
    .cons k (if underPrefixed k then PyVal.none else scrub v) (scrubKVs rest)
end

/-! ### Recursion depth of the evaluator (for claim C8)

The call depth `EvaluateGlobalRestriction` reaches on a value: one per
visited node along the deepest recursion chain.  It grows linearly with
nesting depth — the source has no visited-set and no depth bound — so on a
self-referential mapping (not representable as an inductive value) the
recursion would never bottom out. -/

mutual
def evalDepth : PyVal → Nat
  | .dict kvs => 1 + evalDepthKVs kvs
  | .obj attrs => 1 + evalDepthKVs attrs
  | .list xs => 1 + evalDepthL xs
  | .set xs => 1 + evalDepthL xs
  | _ => 1

def evalDepthL : PyList → Nat
  | .nil => 0
  | .cons x rest => max (evalDepth x) (evalDepthL rest)

def evalDepthKVs : PyKVs → Nat
  | .nil => 0
  | .cons _ v rest => max (evalDepth v) (evalDepthKVs rest)
end

/-- The nest of mappings `d_0 = "x"`, `d_{n+1} = a mapping holding d_n`:
the finite stand-ins for the self-referential mapping `d["k"] = d`. -/
def nestedDict : Nat → PyVal
  | 0 => .str "x"
  | n + 1 => .dict (.cons "k" (nestedDict n) .nil)

/-! ### Safety predicate for the amended claim C1

Hereditarily: no sequence has a mapping first element followed by a
non-mapping element (ruling out the uncaught `AttributeError` of line
241), no mapping carries an `items` entry (ruling out the metadata branch,
whose JSON deserialization can decode exactly such mixed sequences from
embedded strings), no attribute object carries an entry named `iteritems`
or `__iter__` (which would send the bare instance into the mapping or
sequence branch, where iterating it or taking its length raises an
uncaught `TypeError`), and sets hold no mappings (as in Python, where
mappings are unhashable). -/

def isDictV : PyVal → Bool
  | .dict _ => true
  | _ => false

def allDictL : PyList → Bool
  | .nil => true
  | .cons x rest => isDictV x && allDictL rest

def noDictL : PyList → Bool
  | .nil => true
  | .cons x rest => !isDictV x && noDictL rest

mutual
def Safe : PyVal → Bool
  | .dict kvs => SafeKVs kvs
  | .obj attrs => SafeAttrs attrs
  | .list xs => (!headIsDict xs || allDictL xs) && SafeL xs
  | .set xs => noDictL xs && SafeL xs
  | _ => true

def SafeL : PyList → Bool
  | .nil => true
  | .cons x rest => Safe x && SafeL rest

def SafeKVs : PyKVs → Bool
  | .nil => true
  | .cons k v rest => k ≠ "items" && Safe v && SafeKVs rest

def SafeAttrs : PyKVs → Bool
  | .nil => true
  | .cons k v rest => k ≠ "iteritems" && k ≠ "__iter__" && Safe v && SafeAttrs rest
end

/-! ### Concrete patterns

The caller documented at source lines 262-269 compiles
`re.compile(re.escape(text), re.IGNORECASE)` and `search`es values with
it: a case-insensitive substring test for a literal. -/

def isPrefixCL : List Char → List Char → Bool
  | [], _ => true
  | _ :: _, [] => false
  | a :: as, b :: bs => a == b && isPrefixCL as bs

def containsCL : List Char → List Char → Bool
  | pat, [] => pat.isEmpty
  | pat, c :: rest => isPrefixCL pat (c :: rest) || containsCL pat rest

/-- Python `bool(re.compile(re.escape(lit), re.IGNORECASE).search(s))`. -/
def searchCI (lit : String) (s : String) : Bool :=
  containsCL (lit.data.map downChar) (s.data.map downChar)

/-! ### Spec-side formulations, for the refinement-style claims -/

/-- The matching engine as the spec words it: the key as-is, else — for
string keys only — the camelCase variant then the snake_case variant,
first accepted one wins, otherwise absent. -/
def MatchIndexSpec (index : Key) (func : Key → Bool) : Option Key :=
  if func index then Option.some index
  else
    match index with
    | .name s =>
      let c := ConvertToCamelCase s
      let n := ConvertToSnakeCase s
      if func (.name c) then Option.some (.name c)
      else if func (.name n) then Option.some (.name n)
      else Option.none
    | _ => Option.none

/-- The classifier as claim C9 words it: true for a Sequence, true for a
value exposing both an iteration capability and a "next" stepping
capability, false otherwise — including every Mapping and every string. -/
def IsListLikeSpec (r : PyVal) : Bool :=
  match r with
  | .list _ => true
  | .obj attrs => attrs.has "__iter__" && attrs.has "next"
  | _ => false

/-- Claim C5's version of the camel conversion: each non-first segment
gets only its first character uppercased, the rest unchanged. -/
def capFirst : List Char → List Char
  | [] => []
  | c :: rest => upChar c :: rest

def CamelClaim (name : String) : String :=
  String.mk
    (match splitU name.data with
     | [] => []
     | s0 :: rest => s0 ++ (rest.map capFirst).flatten)

/-- Python `str.title` of one segment, worded positionally: pair every
character with whether its predecessor is cased, uppercase the cased
characters after uncased predecessors and lowercase the other cased
ones. -/
def titleSpec (seg : List Char) : List Char :=
  (seg.zip (false :: seg.map isAlphaA)).map
    (fun p => if isAlphaA p.1 then (if p.2 then downChar p.1 else upChar p.1) else p.1)

/-- The amended claim C5: split on underscores, first segment unchanged,
remaining segments `str.title`-cased. -/
def CamelAmended (name : String) : String :=
  String.mk
    (match splitU name.data with
     | [] => []
     | s0 :: rest => s0 ++ (rest.map titleSpec).flatten)

/-- No two adjacent underscores (claim C6's "only single underscores"). -/
def singleUnders : List Char → Bool
  | [] => true
  | [_] => true
  | a :: b :: rest => !(a = '_' && b = '_') && singleUnders (b :: rest)

/-- No digit adjacent to a letter (claim C6's second proviso). -/
def noDigitAdj : List Char → Bool
  | [] => true
  | [_] => true
  | a :: b :: rest =>
    !(isDigitA a && isAlphaA b) && !(isAlphaA a && isDigitA b) && noDigitAdj (b :: rest)

/-- The domain of the amended claim C6: underscore-separated identifiers
whose segments are nonempty and all-lowercase letters, every segment after
the first at least two characters long (so that no two uppercase letters
become adjacent under `ConvertToCamelCase`). -/
def goodSnake (s : String) : Bool :=
  match splitU s.data with
  | [] => false
  | s0 :: rest =>
    !s0.isEmpty && s0.all isLowerA &&
      rest.all (fun seg => decide (2 ≤ seg.length) && seg.all isLowerA)

/-! ## Claim C9 -/

/-- C9: `IsListLike` holds exactly of sequences and of values exposing
both an iteration capability and a "next" stepping capability; it is
false for everything else, including every mapping and every string. -/
theorem c9_isListLike_matches_spec : ∀ r : PyVal, IsListLike r = IsListLikeSpec r := by
  intro r
  cases r <;> rfl

/-! ## Claim C4 -/

/-- C4: the matching engine first tries the key as-is; if rejected and the
key is a string it tries the camelCase then the snake_case conversion in
that order, returning the first accepted variant, otherwise absent;
non-string keys are never converted.  Consequently a snake_case lookup
finds a camelCase entry and a camelCase lookup finds a snake_case
entry. -/
theorem c4_matching_engine :
    (∀ (index : Key) (func : Key → Bool), GetMatchingIndex index func = MatchIndexSpec index func) ∧
    Get (.dict (.cons "fooBar" (.int 5) .nil)) [.name "foo_bar"] .none = .ok (.int 5) ∧
    Get (.dict (.cons "foo_bar" (.int 5) .nil)) [.name "fooBar"] .none = .ok (.int 5) := by
  refine ⟨fun index func => ?_, by decide, by decide⟩
  cases index <;> simp [GetMatchingIndex, MatchIndexSpec, convertLoop]

/-! ## Claim C5 -/

/-- C5 counterexample: on the segment `bC` the source applies Python
`str.title`, which lowercases the trailing `C`, while the claim keeps
every character after the first unchanged, so the two disagree on
`a_bC`. -/
theorem c5_counterexample :
    ConvertToCamelCase "a_bC" = "aBc" ∧ CamelClaim "a_bC" = "aBC" ∧
      ConvertToCamelCase "a_bC" ≠ CamelClaim "a_bC" := by
  exact ⟨by decide, by decide, by decide⟩

theorem titleChars_zip :
    ∀ (cs : List Char) (b : Bool),
      titleChars cs b =
        (cs.zip (b :: cs.map isAlphaA)).map
          (fun p => if isAlphaA p.1 then (if p.2 then downChar p.1 else upChar p.1) else p.1) := by
  intro cs
  induction cs with
  | nil => intro b; rfl
  | cons c rest ih =>
    intro b
    rw [titleChars, List.map_cons, List.zip_cons_cons, List.map_cons, ih (isAlphaA c)]

/-- C5 amended: `ConvertToCamelCase` splits on underscores, keeps the
first segment unchanged, and `str.title`-cases each remaining segment —
uppercasing the first character of each alphabetic run and lowercasing
its other cased characters (so `log_url` still becomes `logUrl`). -/
theorem c5_amended : ∀ name : String, ConvertToCamelCase name = CamelAmended name := by
  intro name
  have hf : (fun seg => titleChars seg false) = titleSpec :=
    funext fun seg => titleChars_zip seg false
  rw [ConvertToCamelCase, CamelAmended, camelChars, hf]

/-! ## Claim C2 -/

/-- C2 counterexample: with an empty path the loop body never runs, so
`Get(None, [], default)` returns the resource `None` itself, not the
default. -/
theorem c2_counterexample :
    Get PyVal.none [] (.str "d") = .ok PyVal.none ∧
      Get PyVal.none [] (.str "d") ≠ .ok (.str "d") := by
  exact ⟨rfl, by decide⟩

/-- C2 amended: for every non-empty path `Get(None, path, default)`
returns the default, and more generally whenever the resource is the
absent value with at least one key left — whatever the pending metadata
state — the walk short-circuits to the default without raising. -/
theorem c2_amended :
    ∀ (k : Key) (rest : List Key) (d : PyVal),
      Get PyVal.none (k :: rest) d = .ok d ∧
      ∀ (fuel : Nat) (m : Option String),
        GetAuxF (fuel + 1) m PyVal.none (k :: rest) d = .ok d := by
  intro k rest d
  exact ⟨rfl, fun fuel m => rfl⟩

/-! ## Claim C8 -/

/-- C8: the evaluator's recursion depth on the nest of mappings of depth
`n` is exactly `n + 1` — the source has no visited-set and no depth bound,
so nothing caps the recursion that a self-referential mapping would make
infinite. -/
theorem c8_eval_depth_unbounded : ∀ n : Nat, evalDepth (nestedDict n) = n + 1 := by
  intro n
  induction n with
  | zero => rfl
  | succ n ih =>
    rw [nestedDict, evalDepth, evalDepthKVs, evalDepthKVs, ih]
    omega

/-! ## Claim C1, counterexample -/

theorem headIsDict_of_allDict :
    ∀ xs : PyList, xs ≠ .nil → allDictL xs = true → headIsDict xs = true := by
  intro xs hne hall
  cases xs with
  | nil => exact absurd rfl hne
  | cons x rest =>
    rw [allDictL] at hall
    cases x <;> simp_all [isDictV, headIsDict]

theorem dictSliceReads_of_allDict :
    ∀ (xs : PyList) (k : String), allDictL xs = true →
      dictSliceReads xs k =
        .ok (xs.toListV.map
          (fun dv =>
            match dv with
            | PyVal.dict kvs => kvs.get k PyVal.none
            | _ => PyVal.none)) := by
  intro xs k
  induction xs using PyList.inductionOn with
  | nil => intro _; rfl
  | cons x rest ih =>
    intro hall
    rw [allDictL] at hall
    cases x <;> simp_all [isDictV, dictSliceReads, PyList.toListV, Except.map]

/-! ## Claim C7 -/

theorem eval_scrub :
    ∀ (r : PyVal) (restr : String) (pat : String → Bool),
      EvaluateGlobalRestriction (scrub r) restr pat = EvaluateGlobalRestriction r restr pat := by
  refine pyValInduct
    (fun r => ∀ restr pat,
      EvaluateGlobalRestriction (scrub r) restr pat = EvaluateGlobalRestriction r restr pat)
    (fun xs => ∀ restr pat, evalElems (scrubL xs) restr pat = evalElems xs restr pat)
    (fun kvs => ∀ restr pat, evalKVs (scrubKVs kvs) restr pat = evalKVs kvs restr pat)
    ?_ ?_ ?_ ?_ ?_ ?_ ?_ ?_ ?_ ?_ ?_ ?_ ?_ ?_
  · intro restr pat; rfl
  · intro b restr pat; rfl
  · intro i restr pat; rfl
  · intro s restr pat; rfl
  · intro s restr pat; rfl
  · intro s restr pat; rfl
  · intro xs ih restr pat
    cases xs with
    | nil => rfl
    | cons x rest =>
      have h := ih restr pat
      rw [scrubL] at h
      simpa [scrub, scrubL, EvaluateGlobalRestriction, pyTruthy] using h
  · intro kvs ih restr pat
    cases kvs with
    | nil => rfl
    | cons k v rest =>
      have h := ih restr pat
      rw [scrubKVs] at h
      simpa [scrub, scrubKVs, EvaluateGlobalRestriction, pyTruthy] using h
  · intro xs ih restr pat
    cases xs with
    | nil => rfl
    | cons x rest =>
      have h := ih restr pat
      rw [scrubL] at h
      simpa [scrub, scrubL, EvaluateGlobalRestriction, pyTruthy] using h
  · intro kvs ih restr pat
    cases kvs with
    | nil => rfl
    | cons k v rest =>
      have h := ih restr pat
      rw [scrubKVs] at h
      simpa [scrub, scrubKVs, EvaluateGlobalRestriction, pyTruthy] using h
  · intro restr pat; rfl
  · intro x rest ihx ihrest restr pat
    rw [scrubL, evalElems, evalElems, ihx restr pat, ihrest restr pat]
  · intro restr pat; rfl
  · intro k v rest ihv ihrest restr pat
    rw [scrubKVs, evalKVs, evalKVs, ihrest restr pat]
    by_cases hunder : underPrefixed k = true
    · simp [hunder]
    · simp only [Bool.not_eq_true] at hunder
      simp [hunder, ihv restr pat]

/-- C7: the evaluator never inspects mapping (or attribute) values stored
under keys beginning with an underscore: any two resources equal after
scrubbing those values evaluate identically; in particular the spec's
example matches on its visible `deploy-foo` value but a pattern matching
only the hidden `secret` value returns false. -/
theorem c7_underscore_values_never_inspected :
    (∀ (r1 r2 : PyVal) (restr : String) (pat : String → Bool),
        scrub r1 = scrub r2 →
        EvaluateGlobalRestriction r1 restr pat = EvaluateGlobalRestriction r2 restr pat) ∧
    EvaluateGlobalRestriction
        (.dict (.cons "_internal" (.str "secret") (.cons "name" (.str "deploy-foo") .nil)))
        "foo" (searchCI "foo") = true ∧
    EvaluateGlobalRestriction
        (.dict (.cons "_internal" (.str "secret") (.cons "name" (.str "deploy-foo") .nil)))
        "secret" (searchCI "secret") = false := by
  refine ⟨fun r1 r2 restr pat h => ?_, by decide, by decide⟩
  calc EvaluateGlobalRestriction r1 restr pat
      = EvaluateGlobalRestriction (scrub r1) restr pat := (eval_scrub r1 restr pat).symm
    _ = EvaluateGlobalRestriction (scrub r2) restr pat := by rw [h]
    _ = EvaluateGlobalRestriction r2 restr pat := eval_scrub r2 restr pat

/-- C7 witness: two resources differing only in the value under an
underscore-prefixed key evaluate identically, via the theorem. -/
theorem c7_witness :
    EvaluateGlobalRestriction
        (.dict (.cons "_internal" (.str "secret") (.cons "name" (.str "x") .nil)))
        "q" (searchCI "secret")
      = EvaluateGlobalRestriction
          (.dict (.cons "_internal" (.str "other") (.cons "name" (.str "x") .nil)))
          "q" (searchCI "secret") :=
  c7_underscore_values_never_inspected.1 _ _ "q" (searchCI "secret") (by decide)

/-! ## Claim C1, safety lemmas -/

def inDictF (kvs : PyKVs) : Key → Bool := fun x =>
  match x with
  | .name n' => kvs.has n'
  | _ => false

def hasAttrF (r : PyVal) : Key → Bool := fun x =>
  match x with
  | .name n' => pyHasattr r n'
  | _ => false

def itemsFallback (n : Nat) (m : Option String) (kvs : PyKVs) (index : Key) (rest : List Key)
    (d : PyVal) : Except PyErr PyVal :=
  if kvs.has "items" then
    GetAuxF n m
      (GetMatchingIndexValue index
        (fun nv => GetMetaDataValue (kvs.get "items" .none) nv (!rest.isEmpty)))
      rest d
  else .ok d

def dictStep (n : Nat) (m : Option String) (kvs : PyKVs) (index : Key) (rest : List Key)
    (d : PyVal) : Except PyErr PyVal :=
  match index with
  | .slice =>
    if rest.isEmpty then .ok (.dict kvs)
    else
      ((exceptMapM
         (fun k => GetAuxF n Option.none (.dict kvs) (.name k :: rest) d)
         kvs.keys).map
        (fun vs => PyVal.list (PyList.ofListV vs)))
  | _ =>
    match GetMatchingIndex index (inDictF kvs) with
    | Option.some nm =>
      if keyTruthy nm then GetAuxF n m (dictLookupKey kvs nm) rest d
      else itemsFallback n m kvs index rest d
    | Option.none => itemsFallback n m kvs index rest d

def clsHitOf (r : PyVal) (index : Key) (d : PyVal) : Option PyVal :=
  match index with
  | .name s =>
    (match GetMatchingIndex (.name s) (hasAttrF r) with
     | Option.some (.name n') =>
       if n' ≠ "" then Option.some (objGetattr r n' d) else Option.none
     | _ => Option.none)
  | _ => Option.none

def seqStep (n : Nat) (m : Option String) (r : PyVal) (index : Key) (rest : List Key)
    (d : PyVal) : Except PyErr PyVal :=
  match r with
  | .list xs =>
    (match index with
     | .slice =>
       if rest.isEmpty then .ok (.list xs)
       else
         ((exceptMapM
            (fun (k : Nat) => GetAuxF n Option.none (.list xs) (.idx (k : Int) :: rest) d)
            (List.range xs.length)).map
           (fun vs => PyVal.list (PyList.ofListV vs)))
     | .name s =>
       if 0 < xs.length && headIsDict xs then
         if rest.isEmpty then collectLast xs s d
         else GetAuxF n (Option.some s) (.list xs) rest d
       else .ok d
     | .idx i =>
       if -(xs.length : Int) ≤ i && i < (xs.length : Int) then
         GetAuxF n m (listIdx xs i) rest d
       else .ok d)
  | .str s =>
    (match index with
     | .slice =>
       if rest.isEmpty then .ok (.str s)
       else
         ((exceptMapM
            (fun (k : Nat) => GetAuxF n Option.none (.str s) (.idx (k : Int) :: rest) d)
            (List.range s.length)).map
           (fun vs => PyVal.list (PyList.ofListV vs)))
     | .name _ => .ok d
     | .idx i =>
       if -(s.length : Int) ≤ i && i < (s.length : Int) then
         GetAuxF n m (strIdx s i) rest d
       else .ok d)
  | .obj attrs =>
    if attrs.has "__iter__" then
      (match index with
       | .slice => if rest.isEmpty then .ok (.obj attrs) else .error .typeError
       | .name _ => .ok d
       | .idx _ => .error .typeError)
    else .ok d
  | _ => .ok d

def getStep (n : Nat) (m : Option String) (r : PyVal) (index : Key) (rest : List Key)
    (d : PyVal) : Except PyErr PyVal :=
  if hasIteritems r then
    match r with
    | .dict kvs => dictStep n m kvs index rest d
    | r' =>
      (match index with
       | .slice => if rest.isEmpty then .ok r' else .error .typeError
       | _ => .error .typeError)
  else
    match clsHitOf r index d with
    | Option.some v => GetAuxF n m v rest d
    | Option.none => seqStep n m r index rest d

/-- C10 counterexample: branch selection is not by the first element's
shape alone — the class-like probe of lines 209-214 runs first, and a
string key naming a builtin list attribute (here `count`) resolves to
the bound method instead of the default, even on a non-empty list whose
first element is not a mapping. -/
theorem c10_counterexample :
    Get (.list (.cons (.int 1) .nil)) [.name "count"] (.str "D") = .ok (.method "count") ∧
      Get (.list (.cons (.int 1) .nil)) [.name "count"] (.str "D") ≠ .ok (.str "D") := by
  exact ⟨by decide, by decide⟩

/-- A string key, or one of its case-converted lookup variants, that
names a builtin attribute of Python list instances: for exactly such
keys the class-like probe of lines 209-214 can intercept the lookup
before the sequence branch of lines 216-251 is reached. -/
def hitsListAttr (k : String) : Bool :=
  listAttrNames.contains k || listAttrNames.contains (ConvertToCamelCase k) ||
    listAttrNames.contains (ConvertToSnakeCase k)

theorem getMatchingIndex_name_none {k : String} {func : Key → Bool}
    (h0 : func (.name k) = false) (h1 : func (.name (ConvertToCamelCase k)) = false)
    (h2 : func (.name (ConvertToSnakeCase k)) = false) :
    GetMatchingIndex (.name k) func = Option.none := by
  have hu : GetMatchingIndex (.name k) func =
      (if func (.name k) then Option.some (.name k)
       else convertLoop [ConvertToCamelCase, ConvertToSnakeCase] k func) := rfl
  rw [hu, if_neg (by simp [h0])]
  have hc1 : convertLoop [ConvertToCamelCase, ConvertToSnakeCase] k func =
      (if func (.name (ConvertToCamelCase k)) then Option.some (.name (ConvertToCamelCase k))
       else convertLoop [ConvertToSnakeCase] k func) := rfl
  rw [hc1, if_neg (by simp [h1])]
  have hc2 : convertLoop [ConvertToSnakeCase] k func =
      (if func (.name (ConvertToSnakeCase k)) then Option.some (.name (ConvertToSnakeCase k))
       else Option.none) := rfl
  rw [hc2, if_neg (by simp [h2])]

theorem clsHit_list_none {xs : PyList} {k : String} (hk : hitsListAttr k = false) (d : PyVal) :
    clsHitOf (.list xs) (.name k) d = Option.none := by
  simp only [hitsListAttr, Bool.or_eq_false_iff] at hk
  have h := @getMatchingIndex_name_none k (hasAttrF (.list xs)) hk.1.1 hk.1.2 hk.2
  have hcls : clsHitOf (.list xs) (.name k) d =
      (match GetMatchingIndex (.name k) (hasAttrF (.list xs)) with
       | Option.some (.name n') =>
         if n' ≠ "" then Option.some (objGetattr (.list xs) n' d) else Option.none
       | _ => Option.none) := rfl
  rw [hcls, h]

/-- C10 corrected: for string keys that do not collide with a builtin
list attribute in any of their case-converted lookup forms, the final-key
branch is selected solely by the shape of the sequence's first element —
a non-empty sequence with a non-mapping first element resolves such a
final key to the default whatever the later elements are, and so does the
empty sequence (whose length test at line 229 fails); a colliding key is
instead intercepted by the class-like probe of lines 209-214, see
`c10_counterexample`. -/
theorem c10_first_element_selects_branch :
    (∀ (xs : PyList) (k : String) (d : PyVal),
        xs ≠ .nil → headIsDict xs = false → hitsListAttr k = false →
        Get (.list xs) [.name k] d = .ok d) ∧
    (∀ (k : String) (d : PyVal), hitsListAttr k = false →
        Get (.list .nil) [.name k] d = .ok d) := by
  constructor
  · intro xs k d hne hhd hk
    show getStep 1 Option.none (.list xs) (.name k) [] d = .ok d
    rw [getStep.eq_def, if_neg (by simp [hasIteritems]), clsHit_list_none hk d]
    show seqStep 1 Option.none (.list xs) (.name k) [] d = .ok d
    have hred : seqStep 1 Option.none (.list xs) (.name k) [] d =
        (if 0 < xs.length && headIsDict xs then
           if ([] : List Key).isEmpty then collectLast xs k d
           else GetAuxF 1 (Option.some k) (.list xs) [] d
         else .ok d) := rfl
    rw [hred, if_neg (by simp [hhd])]
  · intro k d hk
    show getStep 1 Option.none (.list .nil) (.name k) [] d = .ok d
    rw [getStep.eq_def, if_neg (by simp [hasIteritems]), clsHit_list_none hk d]
    show seqStep 1 Option.none (.list .nil) (.name k) [] d = .ok d
    have hred : seqStep 1 Option.none (.list .nil) (.name k) [] d =
        (if 0 < PyList.length .nil && headIsDict .nil then
           if ([] : List Key).isEmpty then collectLast .nil k d
           else GetAuxF 1 (Option.some k) (.list .nil) [] d
         else .ok d) := rfl
    rw [hred, if_neg (by decide)]

/-- C10 witness: a collision-free key run through both conjuncts of the
theorem — a list with a non-mapping head whose second element is a
mapping containing the key still yields the default, and so does the
empty list. -/
theorem c10_witness :
    hitsListAttr "k" = false ∧
      Get (.list (.cons (.int 1) (.cons (.dict (.cons "k" (.str "v") .nil)) .nil)))
        [.name "k"] (.str "D") = .ok (.str "D") ∧
      Get (.list .nil) [.name "k"] (.str "D") = .ok (.str "D") :=
  ⟨by decide,
   c10_first_element_selects_branch.1
     (.cons (.int 1) (.cons (.dict (.cons "k" (.str "v") .nil)) .nil)) "k" (.str "D")
     (by decide) (by decide) (by decide),
   c10_first_element_selects_branch.2 "k" (.str "D") (by decide)⟩

/-! ## Claim C3, resolution -/

/-- C3 counterexample: the collect branch is not reached for every string
final key on a list of mappings — `index` names a builtin list attribute,
so lines 209-214 resolve it to the bound method `list.index` instead of
collecting the field off the mappings. -/
theorem c3_counterexample :
    Get (.list (.cons (.dict (.cons "index" (.int 1) .nil)) .nil)) [.name "index"] PyVal.none
        = .ok (.method "index") ∧
      Get (.list (.cons (.dict (.cons "index" (.int 1) .nil)) .nil)) [.name "index"] PyVal.none
        ≠ .ok (.list (.cons (.int 1) .nil)) := by
  exact ⟨by decide, by decide⟩

/-- C3 corrected: on a non-empty sequence of mappings, a string final key
that does not collide with a builtin list attribute in any of its
case-converted lookup forms collects that field's value off every
element, drops the absent and the falsy ones, and returns the default
exactly when nothing is left; the spec's worked example collects `x` and
`y` and drops the entry missing from the third mapping.  A colliding key
is intercepted by the class-like probe first, see `c3_counterexample`. -/
theorem c3_last_element_field_collect :
    (∀ (xs : PyList) (k : String) (d : PyVal),
        xs ≠ .nil → allDictL xs = true → hitsListAttr k = false →
        Get (.list xs) [.name k] d =
          (let vals := (xs.toListV.map
              (fun dv =>
                match dv with
                | PyVal.dict kvs => kvs.get k PyVal.none
                | _ => PyVal.none)).filter pyTruthy
           if vals.isEmpty then .ok d else .ok (.list (PyList.ofListV vals)))) ∧
    Get (.list (.cons (.dict (.cons "k" (.str "x") .nil))
          (.cons (.dict (.cons "k" (.str "y") .nil)) (.cons (.dict .nil) .nil))))
        [.name "k"] PyVal.none
      = .ok (.list (.cons (.str "x") (.cons (.str "y") .nil))) := by
  constructor
  · intro xs k d hne hall hk
    have hhd : headIsDict xs = true := headIsDict_of_allDict xs hne hall
    have hlen : 0 < PyList.length xs := by
      cases xs with
      | nil => exact absurd rfl hne
      | cons x rest => rw [PyList.length]; omega
    show getStep 1 Option.none (.list xs) (.name k) [] d = _
    rw [getStep.eq_def, if_neg (by simp [hasIteritems]), clsHit_list_none hk d]
    show seqStep 1 Option.none (.list xs) (.name k) [] d = _
    have hred : seqStep 1 Option.none (.list xs) (.name k) [] d =
        (if 0 < xs.length && headIsDict xs then
           if ([] : List Key).isEmpty then collectLast xs k d
           else GetAuxF 1 (Option.some k) (.list xs) [] d
         else .ok d) := rfl
    rw [hred, if_pos (by simp [hlen, hhd]),
      if_pos (show (List.isEmpty ([] : List Key)) = true from rfl)]
    simp only [collectLast, dictSliceReads_of_allDict xs k hall]
  · decide

/-- C3 witness: the collect branch applied through the theorem to a fresh
two-element input, with a falsy present value dropped like an absent
one. -/
theorem c3_witness :
    hitsListAttr "k" = false ∧
      Get (.list (.cons (.dict (.cons "k" (.str "x") .nil))
            (.cons (.dict (.cons "k" (.str "") .nil)) .nil)))
          [.name "k"] PyVal.none
        = .ok (.list (.cons (.str "x") .nil)) := by
  refine ⟨by decide, ?_⟩
  have h := c3_last_element_field_collect.1
    (.cons (.dict (.cons "k" (.str "x") .nil)) (.cons (.dict (.cons "k" (.str "") .nil)) .nil))
    "k" PyVal.none (by decide) (by decide) (by decide)
  simpa using h

/-! ## Claim C6 -/

/-- Rejoining underscore-split segments: the left inverse of `splitU`. -/
def joinU : List (List Char) → List Char
  | [] => []
  | [s] => s
  | s :: ss => s ++ '_' :: joinU ss

theorem joinU_splitU : ∀ cs : List Char, joinU (splitU cs) = cs := by
  intro cs
  induction cs with
  | nil => rfl
  | cons c rest ih =>
    rw [splitU]
    by_cases hc : c = '_'
    · rw [if_pos hc, hc]
      cases hsp : splitU rest with
      | nil => exact absurd hsp (splitU_ne_nil rest)
      | cons s ss =>
        rw [hsp] at ih
        have h1 : joinU (([] : List Char) :: s :: ss) = '_' :: joinU (s :: ss) := rfl
        rw [h1, ih]
    · rw [if_neg hc]
      cases hsp : splitU rest with
      | nil => exact absurd hsp (splitU_ne_nil rest)
      | cons s ss =>
        rw [hsp] at ih
        cases ss with
        | nil =>
          have h1 : joinU [c :: s] = c :: s := rfl
          have h2 : joinU [s] = s := rfl
          rw [h2] at ih
          rw [h1, ih]
        | cons s2 ss2 =>
          have h1 : joinU ((c :: s) :: s2 :: ss2) = c :: (s ++ '_' :: joinU (s2 :: ss2)) := rfl
          have h2 : joinU (s :: s2 :: ss2) = s ++ '_' :: joinU (s2 :: ss2) := rfl
          rw [h2] at ih
          rw [h1, ih]

/-- The last character of a block, with a fallback for the empty block. -/
def lastD (l : List Char) (p : Option Char) : Option Char :=
  match l with
  | [] => p
  | c :: rest => lastD rest (Option.some c)

theorem lastD_lower : ∀ (l : List Char) (p : Option Char), l.all isLowerA = true → l ≠ [] →
    ∃ c, lastD l p = Option.some c ∧ isLowerA c = true := by
  intro l
  induction l with
  | nil => intro p _ hne; exact absurd rfl hne
  | cons c rest ih =>
    intro p hall _
    simp only [List.all_cons, Bool.and_eq_true] at hall
    cases rest with
    | nil => exact ⟨c, rfl, hall.1⟩
    | cons c2 r2 =>
      obtain ⟨c', hc', hl'⟩ := ih (Option.some c) hall.2 (by simp)
      exact ⟨c', hc', hl'⟩

theorem titleChars_lower_true : ∀ cs : List Char, cs.all isLowerA = true →
    titleChars cs true = cs := by
  intro cs
  induction cs with
  | nil => intro _; rfl
  | cons c rest ih =>
    intro hall
    simp only [List.all_cons, Bool.and_eq_true] at hall
    rw [titleChars]
    simp [isAlphaA_of_lower hall.1, downChar_of_lower hall.1, ih hall.2]

theorem titleChars_lower_seg {c : Char} {cs : List Char} (hc : isLowerA c = true)
    (hcs : cs.all isLowerA = true) : titleChars (c :: cs) false = upChar c :: cs := by
  rw [titleChars]
  simp [isAlphaA_of_lower hc, titleChars_lower_true cs hcs]

theorem snakeMatchHere_of_lower {p : Option Char} {c : Char} {rest : List Char}
    (hc : isLowerA c = true) : snakeMatchHere p c rest = false := by
  simp only [snakeMatchHere, not_isUpperA_of_lower hc, Bool.false_and]

theorem snakeSub_lower_block : ∀ (l : List Char) (p : Option Char) (rest : List Char),
    l.all isLowerA = true →
    snakeSub p (l ++ rest) = l ++ snakeSub (lastD l p) rest := by
  intro l
  induction l with
  | nil => intro p rest _; rfl
  | cons c cs ih =>
    intro p rest hall
    simp only [List.all_cons, Bool.and_eq_true] at hall
    rw [List.cons_append, snakeSub, snakeMatchHere_of_lower hall.1, if_neg (by simp)]
    rw [ih (Option.some c) rest hall.2]
    rfl

theorem snakeSub_camel_tail :
    ∀ (segs : List (List Char)) (c : Char), isLowerA c = true →
      (∀ seg ∈ segs, 2 ≤ seg.length ∧ seg.all isLowerA = true) →
      snakeSub (Option.some c) ((segs.map (fun seg => titleChars seg false)).flatten)
        = (segs.map (fun seg => '_' :: titleChars seg false)).flatten := by
  intro segs
  induction segs with
  | nil => intro c _ _; rfl
  | cons seg more ih =>
    intro c hc hsegs
    obtain ⟨hlen, hall⟩ := hsegs seg (List.mem_cons_self seg more)
    cases seg with
    | nil => simp at hlen
    | cons h t =>
      simp only [List.all_cons, Bool.and_eq_true] at hall
      have htne : t ≠ [] := by
        cases t with
        | nil => simp at hlen
        | cons a b => simp
      rw [List.map_cons, List.flatten_cons, titleChars_lower_seg hall.1 hall.2]
      rw [List.cons_append, snakeSub]
      have hmatch :
          snakeMatchHere (Option.some c) (upChar h)
            (t ++ (more.map (fun seg => titleChars seg false)).flatten) = true := by
        cases t with
        | nil => exact absurd rfl htne
        | cons t0 t' =>
          have ht0 : isLowerA t0 = true := by
            have h2 := hall.2
            simp only [List.all_cons, Bool.and_eq_true] at h2
            exact h2.1
          simp only [snakeMatchHere, isUpperA_upChar hall.1, Bool.true_and,
            List.cons_append]
          rw [Bool.or_eq_true]
          right
          exact ht0
      rw [hmatch, if_pos rfl]
      rw [snakeSub_lower_block t (Option.some (upChar h)) _ hall.2]
      obtain ⟨c', hc', hl'⟩ := lastD_lower t (Option.some (upChar h)) hall.2 htne
      rw [hc']
      rw [ih c' hl' (fun s hs => hsegs s (List.mem_cons_of_mem _ hs))]
      rw [List.map_cons, List.flatten_cons, titleChars_lower_seg hall.1 hall.2]
      simp

theorem joinU_flatten : ∀ (s0 : List Char) (rest : List (List Char)),
    joinU (s0 :: rest) = s0 ++ (rest.map (fun seg => '_' :: seg)).flatten := by
  intro s0 rest
  induction rest generalizing s0 with
  | nil => simp [joinU]
  | cons seg more ih =>
    have h1 : joinU (s0 :: seg :: more) = s0 ++ '_' :: joinU (seg :: more) := rfl
    rw [h1, ih seg]
    simp

theorem mapDown_lower : ∀ l : List Char, l.all isLowerA = true → l.map downChar = l := by
  intro l
  induction l with
  | nil => intro _; rfl
  | cons c rest ih =>
    intro hall
    simp only [List.all_cons, Bool.and_eq_true] at hall
    rw [List.map_cons, downChar_of_lower hall.1, ih hall.2]

theorem mapDown_tail : ∀ rest : List (List Char),
    (∀ seg ∈ rest, 2 ≤ seg.length ∧ seg.all isLowerA = true) →
    ((rest.map (fun seg => '_' :: titleChars seg false)).flatten).map downChar
      = (rest.map (fun seg => '_' :: seg)).flatten := by
  intro rest
  induction rest with
  | nil => intro _; rfl
  | cons seg more ih =>
    intro hsegs
    obtain ⟨hlen, hall⟩ := hsegs seg (List.mem_cons_self seg more)
    cases seg with
    | nil => simp at hlen
    | cons h t =>
      simp only [List.all_cons, Bool.and_eq_true] at hall
      rw [List.map_cons, List.flatten_cons, List.map_append,
        titleChars_lower_seg hall.1 hall.2, List.map_cons, List.map_cons]
      have hu : downChar '_' = '_' := by decide
      rw [hu, downChar_upChar hall.1, mapDown_lower t hall.2,
        ih (fun s hs => hsegs s (List.mem_cons_of_mem _ hs))]
      rw [List.map_cons, List.flatten_cons]

theorem string_mk_data : ∀ s : String, String.mk s.data = s := by
  intro s
  cases s
  rfl

theorem snake_camel_id {s : String} (hg : goodSnake s = true) :
    ConvertToSnakeCase (ConvertToCamelCase s) = s := by
  cases hsplit : splitU s.data with
  | nil => exact absurd hsplit (splitU_ne_nil s.data)
  | cons s0 rest =>
    rw [goodSnake, hsplit] at hg
    simp only [Bool.and_eq_true, List.all_eq_true, decide_eq_true_eq,
      Bool.not_eq_true', List.isEmpty_eq_false] at hg
    obtain ⟨⟨hs0ne, hs0low⟩, hrest⟩ := hg
    have hrest' : ∀ seg ∈ rest, 2 ≤ seg.length ∧ seg.all isLowerA = true := by
      intro seg hmem
      obtain ⟨h1, h2⟩ := hrest seg hmem
      exact ⟨h1, by simpa [List.all_eq_true] using h2⟩
    have hs0low' : s0.all isLowerA = true := by simpa [List.all_eq_true] using hs0low
    have hcamel : (ConvertToCamelCase s).data
        = s0 ++ (rest.map (fun seg => titleChars seg false)).flatten := by
      show camelChars s.data = _
      rw [camelChars, hsplit]
    rw [ConvertToSnakeCase, hcamel]
    rw [snakeSub_lower_block s0 Option.none _ hs0low']
    obtain ⟨c', hc', hl'⟩ := lastD_lower s0 Option.none hs0low' hs0ne
    rw [hc', snakeSub_camel_tail rest c' hl' hrest']
    rw [List.map_append, mapDown_lower s0 hs0low', mapDown_tail rest hrest']
    rw [← joinU_flatten s0 rest, ← hsplit, joinU_splitU]

/-- C6 counterexample: `a_b_c` has only single underscores and no digits,
yet its camelCase form `aBC` snake-cases to `a_bc` (the uppercase run is
grouped by the regex), which camel-cases to `aBc`, not back to `aBC`. -/
theorem c6_counterexample :
    singleUnders "a_b_c".data = true ∧ noDigitAdj "a_b_c".data = true ∧
    ConvertToCamelCase "a_b_c" = "aBC" ∧
    ConvertToCamelCase (ConvertToSnakeCase (ConvertToCamelCase "a_b_c")) = "aBc" ∧
    ConvertToCamelCase (ConvertToSnakeCase (ConvertToCamelCase "a_b_c"))
      ≠ ConvertToCamelCase "a_b_c" :=
  ⟨by decide, by decide, by decide, by decide, by decide⟩

/-- C6 amended: for identifiers made of nonempty all-lowercase-letter
segments joined by single underscores, with every segment after the first
at least two characters long (so no two uppercase letters become adjacent
under the camel conversion — adjacent single-letter segments are the
failure the counterexample exhibits), the camelCase representation is a
fixed point of the snake-then-camel round trip; indeed the snake
conversion inverts the camel conversion outright on this domain. -/
theorem c6_amended :
    ∀ s : String, goodSnake s = true →
      ConvertToCamelCase (ConvertToSnakeCase (ConvertToCamelCase s)) = ConvertToCamelCase s := by
  intro s hg
  rw [snake_camel_id hg]

/-- C6 witness: the amended round trip applied at `foo_bar`. -/
theorem c6_witness :
    goodSnake "foo_bar" = true ∧
      ConvertToCamelCase (ConvertToSnakeCase (ConvertToCamelCase "foo_bar"))
        = ConvertToCamelCase "foo_bar" :=
  ⟨by decide, c6_amended "foo_bar" (by decide)⟩

end ResourceProp
